import Mathlib

/-!
# Pending multisig transactions over HTTP (`cli/custom_additions.go`)

A shallow embedding of the `serve-pending-txns` command: the resolver closure
`handler`, the HTTP callback registered on `/`, and the command action around
them.  Library calls (address parsing, the chain node API, the multisig state
decoder, JSON marshalling, integer parsing) are parameters of the model; the
control flow, the intermediate map, the sort and the projection into
`MsigPendingTxn` are translated from the source.
-/

namespace Lotus

/-! ## Go values -/

/-- Go slice: `none` is the nil slice, `some xs` a non-nil slice holding `xs`. -/
abbrev Slice (α : Type) := Option (List α)

/-- The elements of a slice; the nil slice has none. -/
def Slice.elems {α : Type} : Slice α → List α
  | none => []
  | some xs => xs

/-- Go builtin `append(s, x)`: the result is never nil. -/
def Slice.append {α : Type} (s : Slice α) (x : α) : Slice α :=
  some (s.elems ++ [x])

/-- One byte. -/
abbrev Byte := Fin 256

/-- The text of a Go `error` value (what `err.Error()` returns). -/
abbrev Err := String

/-- Go `address.Address` is a struct around one string field. -/
structure Address where
  str : String
deriving DecidableEq, Repr

/-- Go `multisig.Transaction`. -/
structure Transaction where
  To : Address
  Value : Int
  Method : Nat
  Params : Slice Byte
  Approved : Slice Address
deriving DecidableEq, Repr

/-- The zero value of `multisig.Transaction`, what a Go map read returns for a missing key. -/
def Transaction.zero : Transaction :=
  { To := { str := "" }, Value := 0, Method := 0, Params := none, Approved := none }

/-- Go `MsigPendingTxn` (source lines 24-31). -/
structure MsigPendingTxn where
  Id : Int
  To : String
  Value : Int
  Method : Nat
  Params : String
  Approved : Slice Address
deriving DecidableEq, Repr

/-! ## `fmt.Sprintf("%x", bytes)` -/

/-- The digit table of package `fmt`. -/
def ldigits : List Char :=
  ['0', '1', '2', '3', '4', '5', '6', '7', '8', '9', 'a', 'b', 'c', 'd', 'e', 'f']

/-- Go `ldigits[n]`. -/
def hexDigit (n : Nat) : Char := ldigits.getD n '0'

/-- The byte loop of `fmt`: each byte `c` appends `digits[c>>4]`, `digits[c&0xF]`. -/
def fmtSbx : List Byte → List Char
  | [] => []
  | c :: rest => hexDigit (c.val >>> 4) :: hexDigit (c.val &&& 0xF) :: fmtSbx rest

/-- Go `fmt.Sprintf("%x", b)` for a byte slice `b`. -/
def sprintfHex (b : Slice Byte) : String := String.mk (fmtSbx b.elems)

/-- The value of one hexadecimal digit, as `encoding/hex` reads it. -/
def fromHexChar (c : Char) : Option Nat :=
  if '0' ≤ c ∧ c ≤ '9' then some (c.toNat - '0'.toNat)
  else if 'a' ≤ c ∧ c ≤ 'f' then some (c.toNat - 'a'.toNat + 10)
  else if 'A' ≤ c ∧ c ≤ 'F' then some (c.toNat - 'A'.toNat + 10)
  else none

/-- Go `hex.DecodeString` on the characters of a string: pairs of digits, high digit first;
an odd length or a character that is no hex digit is an error. -/
def hexDecode : List Char → Option (List Byte)
  | [] => some []
  | [_] => none
  | p :: q :: rest =>
    match fromHexChar p, fromHexChar q, hexDecode rest with
    | some a, some b, some bs => some (⟨(a * 16 + b) % 256, Nat.mod_lt _ (by decide)⟩ :: bs)
    | _, _, _ => none

/-! ## Go maps keyed by `int64` -/

/-- The map `map[int64]multisig.Transaction` as its entries, each key at most once. -/
abbrev GoMap := List (Int × Transaction)

/-- Go `m[k] = v`. -/
def GoMap.set : GoMap → Int → Transaction → GoMap
  | [], k, v => [(k, v)]
  | (k', v') :: rest, k, v =>
    if k' = k then (k, v) :: rest else (k', v') :: GoMap.set rest k v

/-- Go `m[k]`: the zero value when `k` is absent. -/
def GoMap.get : GoMap → Int → Transaction
  | [], _ => Transaction.zero
  | (k', v') :: rest, k => if k' = k then v' else GoMap.get rest k

/-- The keys held by the map. -/
def GoMap.keys (m : GoMap) : List Int := m.map Prod.fst

/-- The order in which `for k := range m` visits the keys: unspecified by the language,
but every key is visited exactly once. -/
structure RangeOrder where
  order : List Int → List Int
  perm : ∀ ks, (order ks).Perm ks

/-! ## `sort.Slice` -/

/-- One insertion step: `x` goes in front of the first element it is less than. -/
def sortInsert {α : Type} (less : α → α → Bool) (x : α) : List α → List α
  | [] => [x]
  | y :: ys => if less x y then x :: y :: ys else y :: sortInsert less x ys

/-- Go `sort.Slice(s, less)`, as insertion of each element in turn into the sorted part (the
standard library's routine for short slices). The library does not fix the order of elements
that compare equal; the keys sorted here are pairwise distinct. -/
def sortSlice {α : Type} (less : α → α → Bool) (s : Slice α) : Slice α :=
  s.map (fun xs => xs.foldl (fun acc x => sortInsert less x acc) [])

/-- The comparison given to `sort.Slice` (source lines 85-87), on the elements compared. -/
def lessInt64 (a b : Int) : Bool := decide (a < b)

/-! ## The chain node and the resolver -/

/-- The operations the resolver calls, each a function of its arguments for the duration of
one request. `T` is the tipset type, `K` the tipset key type, `A` the actor type, `S` the
decoded multisig state.
`Pending st` is what `ForEachPendingTxn` does on `st`: the pairs it hands to the callback, in
order, and the error it ends with, if any. -/
structure Node (T K A S : Type) where
  NewFromString : String → Except Err Address
  AddrString : Address → String
  ChainHead : Except Err T
  Key : T → K
  StateGetActor : Address → K → Except Err A
  Load : A → Except Err S
  Pending : S → List (Int × Transaction) × Option Err

/-- Go `ForEachPendingTxn(cb)`: calls `cb` on each pair in turn, stops at the first error the
callback returns, and otherwise ends with the enumeration's own outcome. The callback's
captured variables are the threaded state `σ`. -/
def forEachPendingTxn {σ : Type} (items : List (Int × Transaction)) (fail : Option Err)
    (cb : Int → Transaction → σ → σ × Option Err) (s : σ) : σ × Option Err :=
  match items with
  | [] => (s, fail)
  | (id, txn) :: rest =>
    match cb id txn s with
    | (s', some e) => (s', some e)
    | (s', none) => forEachPendingTxn rest fail cb s'

/-- The external operations, as recorded in a call log. -/
inductive Call where
  | NewFromString
  | ChainHead
  | StateGetActor
  | Load
  | ForEachPendingTxn
deriving DecidableEq, Repr

/-- The body of the final loop (source lines 92-103): the record for `txid`. -/
def toMsigPendingTxn {T K A S : Type} (n : Node T K A S) (pending : GoMap) (txid : Int) :
    MsigPendingTxn :=
  let tx := pending.get txid
  let target := n.AddrString tx.To
  let paramStr := sprintfHex tx.Params
  { Id := txid, To := target, Value := tx.Value, Method := tx.Method, Params := paramStr,
    Approved := tx.Approved }

/-- The resolver closure `handler` (source lines 52-107). Returns the Go result pair
(sequence, error) and the log of external calls made. -/
def handler {T K A S : Type} (n : Node T K A S) (ro : RangeOrder) (addr : String) :
    (Slice MsigPendingTxn × Option Err) × List Call :=
  let log := [Call.NewFromString]
  match n.NewFromString addr with
  | .error err => ((some [], some err), log)
  | .ok maddr =>
  let log := log ++ [Call.ChainHead]
  match n.ChainHead with
  | .error err => ((some [], some err), log)
  | .ok head =>
  let log := log ++ [Call.StateGetActor]
  match n.StateGetActor maddr (n.Key head) with
  | .error err => ((some [], some err), log)
  | .ok act =>
  let log := log ++ [Call.Load]
  match n.Load act with
  | .error err => ((some [], some err), log)
  | .ok mstate =>
  let log := log ++ [Call.ForEachPendingTxn]
  match forEachPendingTxn (n.Pending mstate).1 (n.Pending mstate).2
      (fun id txn (pending : GoMap) => (pending.set id txn, none)) [] with
  | (_, some err) => ((some [], some ("reading pending transactions: " ++ err)), log)
  | (pending, none) =>
    let txids : Slice Int := (ro.order pending.keys).foldl Slice.append none
    let txids := sortSlice lessInt64 txids
    let txns : Slice MsigPendingTxn :=
      txids.elems.foldl (fun txns txid => txns.append (toMsigPendingTxn n pending txid)) (some [])
    ((txns, none), log)

/-! ## The HTTP callback -/

/-- What the callback has sent so far through its `http.ResponseWriter`: the status line,
once written, and the body bytes. Header fields are not modelled. -/
structure ResponseWriter where
  status : Option Nat
  body : String
deriving DecidableEq, Repr

/-- The writer a request starts with: nothing sent yet. -/
def ResponseWriter.fresh : ResponseWriter := { status := none, body := "" }

/-- Go `w.WriteHeader(code)`: the first status written is the one sent, a later call changes
nothing. -/
def ResponseWriter.WriteHeader (w : ResponseWriter) (code : Nat) : ResponseWriter :=
  match w.status with
  | some _ => w
  | none => { w with status := some code }

/-- Go `w.Write(b)`: sends status 200 first when no status was written yet. -/
def ResponseWriter.Write (w : ResponseWriter) (b : String) : ResponseWriter :=
  let w := w.WriteHeader 200
  { w with body := w.body ++ b }

/-- Go `http.Error(w, error, code)`: `w.WriteHeader(code)` then `fmt.Fprintln(w, error)`. -/
def httpError (w : ResponseWriter) (error : String) (code : Nat) : ResponseWriter :=
  let w := w.WriteHeader code
  w.Write (error ++ "\n")

/-- Go `http.StatusBadRequest`. -/
def StatusBadRequest : Nat := 400

/-- Go `http.StatusInternalServerError`. -/
def StatusInternalServerError : Nat := 500

/-- Go `json.Marshal` on a slice: `null` for the nil slice, otherwise the elements' encodings
between brackets, separated by commas; it fails when an element's encoding fails. The
element encoder is a parameter. -/
def jsonMarshal {α : Type} (enc : α → Except Err String) : Slice α → Except Err String
  | none => .ok "null"
  | some xs =>
    match xs.mapM enc with
    | .error e => .error e
    | .ok parts => .ok ("[" ++ ",".intercalate parts ++ "]")

/-- Source lines 111-120, the callback after the identifier was cut from the path. `marshal`
is `json.Marshal` at the type of `txns`. On a marshalling error `jsonOut` is nil, and the
final `w.Write` sends no bytes. -/
def respond {T K A S : Type} (n : Node T K A S) (ro : RangeOrder)
    (marshal : Slice MsigPendingTxn → Except Err String) (addr : String)
    (w : ResponseWriter) : ResponseWriter × List Call :=
  match handler n ro addr with
  | ((txns, err), log) =>
    let w := match err with
      | some e => httpError w e StatusBadRequest
      | none => w
    match marshal txns with
    | .error e =>
      let w := httpError w e StatusInternalServerError
      (w.Write "", log)
    | .ok jsonOut => (w.Write jsonOut, log)

/-- Go `path[1:]`: the path without its first byte; `none` is the run-time fault on the empty
string. For a path that starts with `/` the first byte is the first character. -/
def sliceFrom1 (path : String) : Option String :=
  match path.data with
  | [] => none
  | _ :: cs => some (String.mk cs)

/-- The function registered by `http.HandleFunc("/", ...)` (source lines 109-121), run on a
writer and the request's URL path. -/
def httpCallback {T K A S : Type} (n : Node T K A S) (ro : RangeOrder)
    (marshal : Slice MsigPendingTxn → Except Err String) (w : ResponseWriter)
    (path : String) : Option (ResponseWriter × List Call) :=
  match sliceFrom1 path with
  | none => none
  | some addr => some (respond n ro marshal addr w)

/-! ## The command action -/

/-- What the action is given: the positional arguments and the operations it calls.
`ParseInt s` is `strconv.ParseInt(s, 0, 32)`; `ListenAndServe a` is the error that
`http.ListenAndServe(a, nil)` ends with. -/
structure Cli (T K A S : Type) where
  Args : List String
  ShowHelp : Err → Err
  GetFullNodeAPI : Except Err (Node T K A S)
  ParseInt : String → Except Err Int
  ListenAndServe : String → Err

/-- The observable steps of the action. -/
inductive Effect where
  | GetFullNodeAPI
  | Closer
  | HandleFunc
  | Notify
  | Printf (s : String)
  | ListenAndServe (listenAddr : String)
deriving DecidableEq, Repr

/-- How the action ends: it returns to the caller, or `log.Fatal` ends the process. -/
inductive Outcome where
  | returned (err : Option Err)
  | fatal (msg : Err)
deriving DecidableEq, Repr

/-- Go `cctx.Args().First()`. -/
def firstArg (args : List String) : String := args.headD ""

/-- The `Action` of `msigServePendingTxns` (source lines 38-139). The deferred `closer`
runs on every return after the API was obtained, not when `log.Fatal` exits. -/
def action {T K A S : Type} (c : Cli T K A S) : Outcome × List Effect :=
  if c.Args.isEmpty then
    (.returned (some (c.ShowHelp "must specify address of multisig to inspect")), [])
  else
    let fx := [Effect.GetFullNodeAPI]
    match c.GetFullNodeAPI with
    | .error err => (.returned (some err), fx)
    | .ok _ =>
      let fx := fx ++ [Effect.HandleFunc]
      match c.ParseInt (firstArg c.Args) with
      | .error err =>
        (.returned (some ("port must be an integer: " ++ err)), fx ++ [Effect.Closer])
      | .ok port =>
        let fx := fx ++ [Effect.Notify]
        let listenAddr := ":" ++ toString port
        let fx := fx ++ [Effect.Printf ("Listening on " ++ listenAddr ++ "\n")]
        let fx := fx ++ [Effect.ListenAndServe listenAddr]
        (.fatal (c.ListenAndServe listenAddr), fx)

/-! ## Derived forms used in the proofs -/

/-- The map the enumeration callback builds from the pairs it is handed, starting from `m`. -/
def collect (items : List (Int × Transaction)) (m : GoMap) : GoMap :=
  items.foldl (fun m p => m.set p.1 p.2) m

/-- The list `sort.Slice` leaves behind, on the elements. -/
def sortedIds (xs : List Int) : List Int :=
  xs.foldl (fun acc x => sortInsert lessInt64 x acc) []

/-- The five external operations in source order. -/
def allCalls : List Call :=
  [Call.NewFromString, Call.ChainHead, Call.StateGetActor, Call.Load, Call.ForEachPendingTxn]

/-! ## Sample inputs -/

/-- The pending transaction of the end-to-end scenario: value 1000, method 0, params DE AD. -/
def sampleTx : Transaction :=
  { To := { str := "f1xyz" }, Value := 1000, Method := 0, Params := some [0xDE, 0xAD],
    Approved := some [{ str := "f1aaa" }] }

/-- A second pending transaction, with nil params and no approvals. -/
def sampleTx2 : Transaction :=
  { To := { str := "f1q" }, Value := -5, Method := 2, Params := none, Approved := none }

/-- A node whose address parser accepts the texts that start with `f1`, whose head, actor
and state loads succeed, and whose enumeration hands out `items` and ends with `fail`. -/
def sampleNode (items : List (Int × Transaction)) (fail : Option Err) : Node Nat Nat Nat Nat :=
  { NewFromString := fun s =>
      match s.data with
      | 'f' :: '1' :: _ => .ok { str := s }
      | _ => .error "unknown address network"
    AddrString := fun a => a.str
    ChainHead := .ok 7
    Key := fun t => t + 1
    StateGetActor := fun _ _ => .ok 1
    Load := fun _ => .ok 2
    Pending := fun _ => (items, fail) }

/-- A node like `sampleNode` whose head fetch fails. -/
def sampleNodeNoHead : Node Nat Nat Nat Nat :=
  { sampleNode [] none with ChainHead := .error "connection refused" }

/-- Range order: the keys in insertion order. -/
def insertionOrder : RangeOrder := ⟨fun ks => ks, fun ks => List.Perm.refl ks⟩

/-- Range order: the keys in reverse insertion order. -/
def reverseOrder : RangeOrder := ⟨List.reverse, fun ks => List.reverse_perm ks⟩

/-- An element encoder for `jsonMarshal` that writes only the id. -/
def encodeId (r : MsigPendingTxn) : Except Err String := .ok (toString r.Id)

/-- An integer parser that takes decimal digits only. -/
def sampleParseInt (s : String) : Except Err Int :=
  if s.data ≠ [] ∧ s.data.all Char.isDigit = true then
    .ok (Int.ofNat (s.data.foldl (fun v c => 10 * v + (c.toNat - '0'.toNat)) 0))
  else .error "invalid syntax"

/-- A command line with the given arguments and API outcome. -/
def sampleCli (args : List String) (api : Except Err (Node Nat Nat Nat Nat)) :
    Cli Nat Nat Nat Nat :=
  { Args := args, ShowHelp := fun e => e, GetFullNodeAPI := api, ParseInt := sampleParseInt,
    ListenAndServe := fun _ => "listen tcp: address already in use" }

/-! ## Sorting -/

theorem sortInsert_perm {α : Type} (less : α → α → Bool) (x : α) (ys : List α) :
    (sortInsert less x ys).Perm (x :: ys) := by
  induction ys with
  | nil => exact List.Perm.refl _
  | cons y ys ih =>
    simp only [sortInsert]
    split
    · exact List.Perm.refl _
    · exact (List.Perm.cons y ih).trans (List.Perm.swap x y ys)

theorem sortInsert_sorted (x : Int) (ys : List Int) (h : ys.Pairwise (· ≤ ·)) :
    (sortInsert lessInt64 x ys).Pairwise (· ≤ ·) := by
  induction ys with
  | nil => simp [sortInsert]
  | cons y ys ih =>
    simp only [sortInsert]
    rw [List.pairwise_cons] at h
    split
    · rename_i hlt
      have hxy : x < y := by simpa [lessInt64] using hlt
      refine List.Pairwise.cons ?_ (List.Pairwise.cons h.1 h.2)
      intro z hz
      rcases List.mem_cons.1 hz with rfl | hz
      · omega
      · have := h.1 z hz
        omega
    · rename_i hlt
      have hxy : ¬ x < y := by simpa [lessInt64] using hlt
      refine List.Pairwise.cons ?_ (ih h.2)
      intro z hz
      rcases List.mem_cons.1 ((sortInsert_perm lessInt64 x ys).mem_iff.1 hz) with rfl | hz
      · omega
      · exact h.1 z hz

theorem foldl_sortInsert_perm {α : Type} (less : α → α → Bool) (xs acc : List α) :
    (xs.foldl (fun acc x => sortInsert less x acc) acc).Perm (acc ++ xs) := by
  induction xs generalizing acc with
  | nil => simp
  | cons x xs ih =>
    simp only [List.foldl_cons]
    refine (ih _).trans ?_
    refine (List.Perm.append_right xs (sortInsert_perm less x acc)).trans ?_
    exact (List.perm_middle).symm

theorem foldl_sortInsert_sorted (xs acc : List Int) (h : acc.Pairwise (· ≤ ·)) :
    (xs.foldl (fun acc x => sortInsert lessInt64 x acc) acc).Pairwise (· ≤ ·) := by
  induction xs generalizing acc with
  | nil => simpa using h
  | cons x xs ih =>
    simp only [List.foldl_cons]
    exact ih _ (sortInsert_sorted x acc h)

theorem sortedIds_perm (xs : List Int) : (sortedIds xs).Perm xs := by
  simpa [sortedIds] using foldl_sortInsert_perm lessInt64 xs []

theorem sortedIds_sorted (xs : List Int) : (sortedIds xs).Pairwise (· ≤ ·) :=
  foldl_sortInsert_sorted xs [] List.Pairwise.nil

theorem sortedIds_strict (xs : List Int) (h : xs.Nodup) : (sortedIds xs).Pairwise (· < ·) := by
  have hn : (sortedIds xs).Nodup := (sortedIds_perm xs).nodup_iff.2 h
  exact ((sortedIds_sorted xs).and hn).imp (fun hab => lt_of_le_of_ne hab.1 hab.2)

theorem sortedIds_congr (xs ys : List Int) (h : xs.Perm ys) : sortedIds xs = sortedIds ys := by
  refine List.eq_of_perm_of_sorted ?_ (sortedIds_sorted xs) (sortedIds_sorted ys)
  exact ((sortedIds_perm xs).trans h).trans (sortedIds_perm ys).symm

/-! ## Slices built by `append` -/

theorem elems_none {α : Type} : Slice.elems (none : Slice α) = [] := rfl

theorem elems_some {α : Type} (xs : List α) : Slice.elems (some xs) = xs := rfl

theorem foldl_append_elems {α : Type} (xs : List α) (s : Slice α) :
    (xs.foldl Slice.append s).elems = s.elems ++ xs := by
  induction xs generalizing s with
  | nil => simp
  | cons x xs ih =>
    simp only [List.foldl_cons]
    rw [ih]
    simp [Slice.append, Slice.elems]

theorem sortSlice_elems (s : Slice Int) :
    (sortSlice lessInt64 s).elems = sortedIds s.elems := by
  cases s <;> simp [sortSlice, Slice.elems, sortedIds]

theorem foldl_append_map {α β : Type} (f : α → β) (xs : List α) (acc : List β) :
    xs.foldl (fun (txns : Slice β) x => txns.append (f x)) (some acc)
      = some (acc ++ xs.map f) := by
  induction xs generalizing acc with
  | nil => simp
  | cons x xs ih =>
    simp only [List.foldl_cons]
    have h : Slice.append (some acc) (f x) = some (acc ++ [f x]) := rfl
    rw [h, ih]
    simp

/-! ## The intermediate map -/

theorem GoMap.mem_keys_set (m : GoMap) (k : Int) (v : Transaction) (x : Int) :
    x ∈ (GoMap.set m k v).keys ↔ x = k ∨ x ∈ m.keys := by
  induction m with
  | nil => simp [GoMap.set, GoMap.keys]
  | cons p rest ih =>
    obtain ⟨k', v'⟩ := p
    simp only [GoMap.set]
    split
    · rename_i hk
      subst hk
      simp [GoMap.keys]
    · simp only [GoMap.keys, List.map_cons, List.mem_cons] at ih ⊢
      rw [ih]
      tauto

theorem GoMap.nodup_keys_set (m : GoMap) (k : Int) (v : Transaction) (h : m.keys.Nodup) :
    (GoMap.set m k v).keys.Nodup := by
  induction m with
  | nil => simp [GoMap.set, GoMap.keys]
  | cons p rest ih =>
    obtain ⟨k', v'⟩ := p
    simp only [GoMap.keys, List.map_cons, List.nodup_cons] at h
    simp only [GoMap.set]
    split
    · rename_i hk
      subst hk
      simpa [GoMap.keys] using h
    · rename_i hk
      have hrest := ih h.2
      have hmem := GoMap.mem_keys_set rest k v k'
      simp only [GoMap.keys, List.map_cons, List.nodup_cons]
      refine ⟨?_, hrest⟩
      intro hin
      rcases hmem.1 hin with h1 | h1
      · exact hk h1
      · exact h.1 h1

theorem GoMap.get_set (m : GoMap) (k : Int) (v : Transaction) (x : Int) :
    (GoMap.set m k v).get x = if x = k then v else m.get x := by
  induction m with
  | nil =>
    by_cases hx : x = k
    · simp [GoMap.set, GoMap.get, hx]
    · have hx' : ¬ k = x := fun h => hx h.symm
      simp [GoMap.set, GoMap.get, hx, hx']
  | cons p rest ih =>
    obtain ⟨k', v'⟩ := p
    simp only [GoMap.set]
    split
    · rename_i hk
      subst hk
      by_cases hx : x = k'
      · simp [GoMap.get, hx]
      · have hx' : ¬ k' = x := fun h => hx h.symm
        simp [GoMap.get, hx, hx']
    · rename_i hk
      by_cases hx : k' = x
      · subst hx
        simp [GoMap.get, hk]
      · simp only [GoMap.get, hx, if_false]
        exact ih

theorem forEach_collect (items : List (Int × Transaction)) (fail : Option Err) (m : GoMap) :
    forEachPendingTxn items fail (fun id txn (pending : GoMap) => (pending.set id txn, none)) m
      = (collect items m, fail) := by
  induction items generalizing m with
  | nil => simp [forEachPendingTxn, collect]
  | cons p rest ih =>
    obtain ⟨k, v⟩ := p
    simp only [forEachPendingTxn, collect, List.foldl_cons]
    exact ih _

theorem mem_keys_collect (items : List (Int × Transaction)) (m : GoMap) (x : Int) :
    x ∈ (collect items m).keys ↔ x ∈ m.keys ∨ x ∈ items.map Prod.fst := by
  induction items generalizing m with
  | nil => simp [collect]
  | cons p rest ih =>
    have := ih (m.set p.1 p.2)
    simp only [collect, List.foldl_cons] at this ⊢
    rw [this, GoMap.mem_keys_set]
    simp only [List.map_cons, List.mem_cons]
    tauto

theorem nodup_keys_collect (items : List (Int × Transaction)) (m : GoMap)
    (h : m.keys.Nodup) : (collect items m).keys.Nodup := by
  induction items generalizing m with
  | nil => simpa [collect] using h
  | cons p rest ih =>
    simp only [collect, List.foldl_cons]
    exact ih _ (GoMap.nodup_keys_set m p.1 p.2 h)

theorem get_collect_of_not_mem (items : List (Int × Transaction)) (m : GoMap) (x : Int)
    (h : x ∉ items.map Prod.fst) : (collect items m).get x = m.get x := by
  induction items generalizing m with
  | nil => simp [collect]
  | cons p rest ih =>
    simp only [List.map_cons, List.mem_cons, not_or] at h
    have := ih (m.set p.1 p.2) h.2
    simp only [collect, List.foldl_cons] at this ⊢
    rw [this, GoMap.get_set, if_neg h.1]

theorem get_collect_mem (items : List (Int × Transaction)) (m : GoMap) (x : Int)
    (h : x ∈ items.map Prod.fst) : (x, (collect items m).get x) ∈ items := by
  induction items generalizing m with
  | nil => simp at h
  | cons p rest ih =>
    by_cases hr : x ∈ rest.map Prod.fst
    · have := ih (m.set p.1 p.2) hr
      simp only [collect, List.foldl_cons] at this ⊢
      exact List.mem_cons_of_mem _ this
    · have hx : x = p.1 := by
        simp only [List.map_cons, List.mem_cons] at h
        tauto
      have := get_collect_of_not_mem rest (m.set p.1 p.2) x hr
      simp only [collect, List.foldl_cons] at this ⊢
      rw [this, GoMap.get_set, if_pos hx, hx]
      exact List.mem_cons_self _ _

/-! ## The resolver, case by case -/

theorem handler_ok_eq {T K A S : Type} (n : Node T K A S) (ro : RangeOrder) (addr : String)
    (maddr : Address) (head : T) (act : A) (st : S)
    (h1 : n.NewFromString addr = .ok maddr) (h2 : n.ChainHead = .ok head)
    (h3 : n.StateGetActor maddr (n.Key head) = .ok act) (h4 : n.Load act = .ok st)
    (h5 : (n.Pending st).2 = none) :
    handler n ro addr
      = ((some ((sortedIds (ro.order (collect (n.Pending st).1 []).keys)).map
            (toMsigPendingTxn n (collect (n.Pending st).1 []))), none), allCalls) := by
  simp only [handler, h1, h2, h3, h4, forEach_collect, h5, sortSlice_elems,
    foldl_append_elems, foldl_append_map, elems_none, List.nil_append, allCalls,
    List.cons_append]

theorem handler_enum_error_eq {T K A S : Type} (n : Node T K A S) (ro : RangeOrder)
    (addr : String) (maddr : Address) (head : T) (act : A) (st : S) (e : Err)
    (h1 : n.NewFromString addr = .ok maddr) (h2 : n.ChainHead = .ok head)
    (h3 : n.StateGetActor maddr (n.Key head) = .ok act) (h4 : n.Load act = .ok st)
    (h5 : (n.Pending st).2 = some e) :
    handler n ro addr
      = ((some [], some ("reading pending transactions: " ++ e)), allCalls) := by
  simp only [handler, h1, h2, h3, h4, forEach_collect, h5, allCalls, List.nil_append,
    List.cons_append]

theorem handler_cases {T K A S : Type} (n : Node T K A S) (ro : RangeOrder) (addr : String) :
    (∃ e, (handler n ro addr).1 = (some [], some e)) ∨
    (∃ items, (handler n ro addr).1
      = (some ((sortedIds (ro.order (collect items []).keys)).map
            (toMsigPendingTxn n (collect items []))), none)) := by
  cases h1 : n.NewFromString addr with
  | error e => exact Or.inl ⟨e, by simp only [handler, h1]⟩
  | ok maddr =>
  cases h2 : n.ChainHead with
  | error e => exact Or.inl ⟨e, by simp only [handler, h1, h2]⟩
  | ok head =>
  cases h3 : n.StateGetActor maddr (n.Key head) with
  | error e => exact Or.inl ⟨e, by simp only [handler, h1, h2, h3]⟩
  | ok act =>
  cases h4 : n.Load act with
  | error e => exact Or.inl ⟨e, by simp only [handler, h1, h2, h3, h4]⟩
  | ok st =>
  cases h5 : (n.Pending st).2 with
  | some e =>
    exact Or.inl ⟨_, by rw [handler_enum_error_eq n ro addr maddr head act st e h1 h2 h3 h4 h5]⟩
  | none =>
    exact Or.inr ⟨_, by rw [handler_ok_eq n ro addr maddr head act st h1 h2 h3 h4 h5]⟩

theorem map_Id_toMsigPendingTxn {T K A S : Type} (n : Node T K A S) (pending : GoMap)
    (ks : List Int) : (ks.map (toMsigPendingTxn n pending)).map (fun r => r.Id) = ks := by
  induction ks with
  | nil => rfl
  | cons k ks ih =>
    simp only [List.map_cons, List.map_map] at ih ⊢
    rw [ih]
    rfl

theorem keys_collect_nodup (items : List (Int × Transaction)) :
    (collect items []).keys.Nodup :=
  nodup_keys_collect items [] (by simp [GoMap.keys])

theorem handler_ids_pairwise {T K A S : Type} (n : Node T K A S) (ro : RangeOrder)
    (addr : String) :
    ((handler n ro addr).1.1.elems.map (fun r => r.Id)).Pairwise (· < ·) := by
  rcases handler_cases n ro addr with ⟨e, h⟩ | ⟨items, h⟩
  · rw [h]
    simp [Slice.elems]
  · rw [h]
    simp only [Slice.elems]
    rw [map_Id_toMsigPendingTxn]
    exact sortedIds_strict _ ((ro.perm _).nodup_iff.2 (keys_collect_nodup items))

/-! ## Claims about the resolver -/

/-- C1: for every successful call of the resolver, the `Id` fields of the returned sequence
are strictly increasing: for all positions `i < j`, `result[i].Id < result[j].Id`, whatever
pairs the enumeration delivers and in whatever order the map is ranged over. -/
theorem handler_ids_strictly_increasing {T K A S : Type} (n : Node T K A S) (ro : RangeOrder)
    (addr : String) (txns : Slice MsigPendingTxn) (h : (handler n ro addr).1 = (txns, none))
    (i j : Fin txns.elems.length) (hij : i < j) :
    (txns.elems.get i).Id < (txns.elems.get j).Id := by
  have hp := handler_ids_pairwise n ro addr
  rw [h] at hp
  rw [List.pairwise_map] at hp
  exact List.pairwise_iff_get.1 hp i j hij

/-- C1, at a node that delivers ids 3, 1, 3, -4 in that order. -/
theorem handler_ids_strictly_increasing_witness :
    (handler (sampleNode [(3, sampleTx), (1, sampleTx2), (3, sampleTx2), (-4, sampleTx)] none)
        reverseOrder "f1abc").1
      = (some [toMsigPendingTxn (sampleNode [] none) [(-4, sampleTx)] (-4),
               toMsigPendingTxn (sampleNode [] none) [(1, sampleTx2)] 1,
               toMsigPendingTxn (sampleNode [] none) [(3, sampleTx2)] 3], none) ∧
    (-4 : Int) < 1 :=
  ⟨by decide,
   handler_ids_strictly_increasing
    (sampleNode [(3, sampleTx), (1, sampleTx2), (3, sampleTx2), (-4, sampleTx)] none)
    reverseOrder "f1abc"
    (some [toMsigPendingTxn (sampleNode [] none) [(-4, sampleTx)] (-4),
           toMsigPendingTxn (sampleNode [] none) [(1, sampleTx2)] 1,
           toMsigPendingTxn (sampleNode [] none) [(3, sampleTx2)] 3])
    (by decide) ⟨0, by decide⟩ ⟨1, by decide⟩ (by decide)⟩

theorem keys_collect_perm_of_nodup (items : List (Int × Transaction))
    (hd : (items.map Prod.fst).Nodup) : (collect items []).keys.Perm (items.map Prod.fst) := by
  refine (List.perm_ext_iff_of_nodup (keys_collect_nodup items) hd).2 ?_
  intro x
  rw [mem_keys_collect]
  simp [GoMap.keys]

theorem get_collect_of_mem (items : List (Int × Transaction)) (k : Int) (tx : Transaction)
    (hfun : ∀ a b, (k, a) ∈ items → (k, b) ∈ items → a = b) (h : (k, tx) ∈ items) :
    (collect items []).get k = tx := by
  have hk : k ∈ items.map Prod.fst := List.mem_map.2 ⟨(k, tx), h, rfl⟩
  exact hfun _ _ (get_collect_mem items [] k hk) h

/-- C2: a successful resolver call over `N` pending transactions with distinct ids returns
exactly `N` records, each pending id occurs exactly once among the record ids, and the record
with id `k` is the projection of the transaction keyed `k`: destination as text, value and
method copied, params in hex, approvers copied. -/
theorem handler_projects_each_pending {T K A S : Type} (n : Node T K A S) (ro : RangeOrder)
    (addr : String) (maddr : Address) (head : T) (act : A) (st : S)
    (h1 : n.NewFromString addr = .ok maddr) (h2 : n.ChainHead = .ok head)
    (h3 : n.StateGetActor maddr (n.Key head) = .ok act) (h4 : n.Load act = .ok st)
    (h5 : (n.Pending st).2 = none) (hd : ((n.Pending st).1.map Prod.fst).Nodup) :
    ∃ res : List MsigPendingTxn,
      (handler n ro addr).1 = (some res, none) ∧
      res.length = (n.Pending st).1.length ∧
      ∀ k tx, (k, tx) ∈ (n.Pending st).1 →
        (res.map (fun r => r.Id)).count k = 1 ∧
        ∀ r ∈ res, r.Id = k →
          r.To = n.AddrString tx.To ∧ r.Value = tx.Value ∧ r.Method = tx.Method ∧
          r.Params = sprintfHex tx.Params ∧ r.Approved = tx.Approved := by
  have hperm : (sortedIds (ro.order (collect (n.Pending st).1 []).keys)).Perm
      ((n.Pending st).1.map Prod.fst) :=
    ((sortedIds_perm _).trans (ro.perm _)).trans (keys_collect_perm_of_nodup _ hd)
  refine ⟨_, by rw [handler_ok_eq n ro addr maddr head act st h1 h2 h3 h4 h5], ?_, ?_⟩
  · rw [List.length_map, hperm.length_eq, List.length_map]
  · intro k tx hmem
    have hk : k ∈ (n.Pending st).1.map Prod.fst := List.mem_map.2 ⟨(k, tx), hmem, rfl⟩
    have hget : (collect (n.Pending st).1 []).get k = tx := by
      refine get_collect_of_mem _ k tx ?_ hmem
      intro a b ha hb
      have := List.inj_on_of_nodup_map hd ha hb rfl
      exact (Prod.mk.inj this).2
    constructor
    · rw [map_Id_toMsigPendingTxn]
      exact List.count_eq_one_of_mem (hperm.nodup_iff.2 hd) (hperm.mem_iff.2 hk)
    · intro r hr hrk
      obtain ⟨k', _, rfl⟩ := List.mem_map.1 hr
      have hk' : k' = k := hrk
      subst hk'
      simp [toMsigPendingTxn, hget]

/-- C2, at the single pending transaction with id 3, value 1000, method 0, params DE AD:
the one record has id 3, value 1000, method 0 and params `dead`. -/
theorem handler_projects_each_pending_witness :
    (handler (sampleNode [(3, sampleTx)] none) insertionOrder "f1abc").1
      = (some [{ Id := 3, To := "f1xyz", Value := 1000, Method := 0, Params := "dead",
                 Approved := some [{ str := "f1aaa" }] }], none) ∧
    ∃ res : List MsigPendingTxn,
      (handler (sampleNode [(3, sampleTx)] none) insertionOrder "f1abc").1 = (some res, none) ∧
      res.length = [((3 : Int), sampleTx)].length ∧
      ∀ k tx, (k, tx) ∈ [((3 : Int), sampleTx)] →
        (res.map (fun r => r.Id)).count k = 1 ∧
        ∀ r ∈ res, r.Id = k →
          r.To = tx.To.str ∧ r.Value = tx.Value ∧ r.Method = tx.Method ∧
          r.Params = sprintfHex tx.Params ∧ r.Approved = tx.Approved :=
  ⟨by decide,
   handler_projects_each_pending (sampleNode [(3, sampleTx)] none) insertionOrder "f1abc"
    { str := "f1abc" } 7 1 2 rfl rfl rfl rfl rfl (by decide)⟩

/-- C6: when address parsing rejects the identifier, the resolver returns the parse error
and an empty sequence, and its call log holds the parse alone: head fetch, actor fetch,
state load and enumeration each occur zero times, also in the log of the whole request. -/
theorem handler_parse_error_contacts_no_node {T K A S : Type} (n : Node T K A S)
    (ro : RangeOrder) (addr : String) (e : Err) (h : n.NewFromString addr = .error e) :
    (handler n ro addr).1 = (some [], some e) ∧
    (handler n ro addr).2 = [Call.NewFromString] ∧
    (handler n ro addr).2.count Call.ChainHead = 0 ∧
    (handler n ro addr).2.count Call.StateGetActor = 0 ∧
    (handler n ro addr).2.count Call.Load = 0 ∧
    (handler n ro addr).2.count Call.ForEachPendingTxn = 0 ∧
    ∀ marshal w, (respond n ro marshal addr w).2 = [Call.NewFromString] := by
  have hh : handler n ro addr = ((some [], some e), [Call.NewFromString]) := by
    simp only [handler, h]
  refine ⟨by rw [hh], by rw [hh], by rw [hh]; rfl, by rw [hh]; rfl, by rw [hh]; rfl,
    by rw [hh]; rfl, ?_⟩
  intro marshal w
  simp only [respond, hh]
  split <;> rfl

/-- C6, at the identifier `not-an-address`. -/
theorem handler_parse_error_contacts_no_node_witness :
    (sampleNode [(3, sampleTx)] none).NewFromString "not-an-address"
      = .error "unknown address network" ∧
    (handler (sampleNode [(3, sampleTx)] none) insertionOrder "not-an-address").2.count
      Call.ChainHead = 0 :=
  ⟨rfl,
   (handler_parse_error_contacts_no_node (sampleNode [(3, sampleTx)] none) insertionOrder
      "not-an-address" "unknown address network" rfl).2.2.1⟩

/-- C10 (as amended): the call log is an initial part of parse, head fetch, actor fetch,
state load, enumeration, so the steps run in that order and each at most once; when a step
fails the log ends with it, the returned sequence is the empty non-nil one, and the returned
error is that step's error for the first four steps and that error behind the text
`reading pending transactions: ` for the enumeration, whatever pairs were already delivered. -/
theorem handler_stops_at_first_failure {T K A S : Type} (n : Node T K A S) (ro : RangeOrder)
    (addr : String) :
    (∃ k, (handler n ro addr).2 = allCalls.take k) ∧
    (∀ e, n.NewFromString addr = .error e →
      handler n ro addr = ((some [], some e), allCalls.take 1)) ∧
    (∀ maddr e, n.NewFromString addr = .ok maddr → n.ChainHead = .error e →
      handler n ro addr = ((some [], some e), allCalls.take 2)) ∧
    (∀ maddr head e, n.NewFromString addr = .ok maddr → n.ChainHead = .ok head →
      n.StateGetActor maddr (n.Key head) = .error e →
      handler n ro addr = ((some [], some e), allCalls.take 3)) ∧
    (∀ maddr head act e, n.NewFromString addr = .ok maddr → n.ChainHead = .ok head →
      n.StateGetActor maddr (n.Key head) = .ok act → n.Load act = .error e →
      handler n ro addr = ((some [], some e), allCalls.take 4)) ∧
    (∀ maddr head act st e, n.NewFromString addr = .ok maddr → n.ChainHead = .ok head →
      n.StateGetActor maddr (n.Key head) = .ok act → n.Load act = .ok st →
      (n.Pending st).2 = some e →
      handler n ro addr
        = ((some [], some ("reading pending transactions: " ++ e)), allCalls.take 5)) := by
  refine ⟨?_, ?_, ?_, ?_, ?_, ?_⟩
  · cases h1 : n.NewFromString addr with
    | error e => exact ⟨1, by simp only [handler, h1]; rfl⟩
    | ok maddr =>
    cases h2 : n.ChainHead with
    | error e => exact ⟨2, by simp only [handler, h1, h2]; rfl⟩
    | ok head =>
    cases h3 : n.StateGetActor maddr (n.Key head) with
    | error e => exact ⟨3, by simp only [handler, h1, h2, h3]; rfl⟩
    | ok act =>
    cases h4 : n.Load act with
    | error e => exact ⟨4, by simp only [handler, h1, h2, h3, h4]; rfl⟩
    | ok st =>
    cases h5 : (n.Pending st).2 with
    | some e =>
      exact ⟨5, by rw [handler_enum_error_eq n ro addr maddr head act st e h1 h2 h3 h4 h5]; rfl⟩
    | none =>
      exact ⟨5, by rw [handler_ok_eq n ro addr maddr head act st h1 h2 h3 h4 h5]; rfl⟩
  · intro e h1
    simp only [handler, h1]
    rfl
  · intro maddr e h1 h2
    simp only [handler, h1, h2]
    rfl
  · intro maddr head e h1 h2 h3
    simp only [handler, h1, h2, h3]
    rfl
  · intro maddr head act e h1 h2 h3 h4
    simp only [handler, h1, h2, h3, h4]
    rfl
  · intro maddr head act st e h1 h2 h3 h4 h5
    rw [handler_enum_error_eq n ro addr maddr head act st e h1 h2 h3 h4 h5]
    rfl

/-- C10 (as amended), at a node whose enumeration fails after handing out two pairs and at
a node whose head fetch fails. -/
theorem handler_stops_at_first_failure_witness :
    handler (sampleNode [(3, sampleTx), (1, sampleTx2)] (some "boom")) reverseOrder "f1abc"
      = ((some [], some "reading pending transactions: boom"), allCalls) ∧
    handler sampleNodeNoHead reverseOrder "f1abc"
      = ((some [], some "connection refused"), [Call.NewFromString, Call.ChainHead]) :=
  ⟨(handler_stops_at_first_failure (sampleNode [(3, sampleTx), (1, sampleTx2)] (some "boom"))
      reverseOrder "f1abc").2.2.2.2.2 { str := "f1abc" } 7 1 2 "boom" rfl rfl rfl rfl rfl,
   (handler_stops_at_first_failure sampleNodeNoHead reverseOrder "f1abc").2.2.1
      { str := "f1abc" } "connection refused" rfl rfl⟩

/-- C10 as stated fails at the enumeration step: the enumeration ends with the error `boom`,
and the resolver returns another error, whose text is `reading pending transactions: boom`. -/
theorem handler_enum_error_is_wrapped :
    ((sampleNode [(3, sampleTx)] (some "boom")).Pending 2).2 = some "boom" ∧
    (handler (sampleNode [(3, sampleTx)] (some "boom")) insertionOrder "f1abc").1.2
      = some "reading pending transactions: boom" ∧
    (handler (sampleNode [(3, sampleTx)] (some "boom")) insertionOrder "f1abc").1.2
      ≠ some "boom" := by
  decide

theorem keys_collect_perm_of_same_set (items1 items2 : List (Int × Transaction))
    (hset : ∀ p, p ∈ items1 ↔ p ∈ items2) :
    (collect items1 []).keys.Perm (collect items2 []).keys := by
  refine (List.perm_ext_iff_of_nodup (keys_collect_nodup items1) (keys_collect_nodup items2)).2 ?_
  intro x
  rw [mem_keys_collect, mem_keys_collect]
  simp only [GoMap.keys, List.map_nil, List.not_mem_nil, false_or, List.mem_map]
  constructor
  · rintro ⟨p, hp, rfl⟩
    exact ⟨p, (hset p).1 hp, rfl⟩
  · rintro ⟨p, hp, rfl⟩
    exact ⟨p, (hset p).2 hp, rfl⟩

theorem get_collect_of_same_set (items1 items2 : List (Int × Transaction))
    (hset : ∀ p, p ∈ items1 ↔ p ∈ items2)
    (hkey : ∀ k a b, (k, a) ∈ items1 → (k, b) ∈ items1 → a = b)
    (k : Int) (hk : k ∈ (collect items1 []).keys) :
    (collect items1 []).get k = (collect items2 []).get k := by
  have hk1 : k ∈ items1.map Prod.fst := by
    have := (mem_keys_collect items1 [] k).1 hk
    simpa [GoMap.keys] using this
  have hk2 : k ∈ items2.map Prod.fst := by
    obtain ⟨p, hp, hpk⟩ := List.mem_map.1 hk1
    exact List.mem_map.2 ⟨p, (hset p).1 hp, hpk⟩
  have m1 := get_collect_mem items1 [] k hk1
  have m2 := (hset _).2 (get_collect_mem items2 [] k hk2)
  exact hkey k _ _ m1 m2

/-- C8 (as amended): two runs on the same identifier, with the same parse, head, actor and
state-load results and enumerations that deliver the same set of pairs, in which each id
comes with one transaction, return equal results and produce equal responses, whatever the
two delivery orders, the two map range orders, and however often a pair is delivered. -/
theorem handler_result_is_order_independent {T K A S : Type} (n1 n2 : Node T K A S)
    (ro1 ro2 : RangeOrder) (addr : String)
    (hparse : n1.NewFromString = n2.NewFromString) (hstr : n1.AddrString = n2.AddrString)
    (hhead : n1.ChainHead = n2.ChainHead) (hk : n1.Key = n2.Key)
    (hactor : n1.StateGetActor = n2.StateGetActor) (hload : n1.Load = n2.Load)
    (hset : ∀ st p, p ∈ (n1.Pending st).1 ↔ p ∈ (n2.Pending st).1)
    (hfail : ∀ st, (n1.Pending st).2 = (n2.Pending st).2)
    (hkey : ∀ st k a b, (k, a) ∈ (n1.Pending st).1 → (k, b) ∈ (n1.Pending st).1 → a = b) :
    handler n1 ro1 addr = handler n2 ro2 addr ∧
    ∀ marshal w, respond n1 ro1 marshal addr w = respond n2 ro2 marshal addr w := by
  have key : handler n1 ro1 addr = handler n2 ro2 addr := by
    cases h1 : n1.NewFromString addr with
    | error e =>
      have h1' : n2.NewFromString addr = .error e := by rw [← hparse]; exact h1
      simp only [handler, h1, h1']
    | ok maddr =>
    have h1' : n2.NewFromString addr = .ok maddr := by rw [← hparse]; exact h1
    cases h2 : n1.ChainHead with
    | error e =>
      have h2' : n2.ChainHead = .error e := by rw [← hhead]; exact h2
      simp only [handler, h1, h1', h2, h2']
    | ok head =>
    have h2' : n2.ChainHead = .ok head := by rw [← hhead]; exact h2
    cases h3 : n1.StateGetActor maddr (n1.Key head) with
    | error e =>
      have h3' : n2.StateGetActor maddr (n2.Key head) = .error e := by
        rw [← hactor, ← hk]; exact h3
      simp only [handler, h1, h1', h2, h2', h3, h3']
    | ok act =>
    have h3' : n2.StateGetActor maddr (n2.Key head) = .ok act := by
      rw [← hactor, ← hk]; exact h3
    cases h4 : n1.Load act with
    | error e =>
      have h4' : n2.Load act = .error e := by rw [← hload]; exact h4
      simp only [handler, h1, h1', h2, h2', h3, h3', h4, h4']
    | ok st =>
    have h4' : n2.Load act = .ok st := by rw [← hload]; exact h4
    cases h5 : (n1.Pending st).2 with
    | some e =>
      rw [handler_enum_error_eq n1 ro1 addr maddr head act st e h1 h2 h3 h4 h5,
        handler_enum_error_eq n2 ro2 addr maddr head act st e h1' h2' h3' h4'
          ((hfail st).symm.trans h5)]
    | none =>
      rw [handler_ok_eq n1 ro1 addr maddr head act st h1 h2 h3 h4 h5,
        handler_ok_eq n2 ro2 addr maddr head act st h1' h2' h3' h4'
          ((hfail st).symm.trans h5)]
      have hperm := keys_collect_perm_of_same_set _ _ (hset st)
      have hs : sortedIds (ro1.order (collect (n1.Pending st).1 []).keys)
          = sortedIds (ro2.order (collect (n2.Pending st).1 []).keys) :=
        sortedIds_congr _ _ (((ro1.perm _).trans hperm).trans (ro2.perm _).symm)
      rw [← hs]
      congr 3
      refine List.map_congr_left ?_
      intro k hk
      have hk1 : k ∈ (collect (n1.Pending st).1 []).keys :=
        (ro1.perm _).mem_iff.1 ((sortedIds_perm _).mem_iff.1 hk)
      have hg := get_collect_of_same_set _ _ (hset st) (hkey st) k hk1
      simp only [toMsigPendingTxn, hg, hstr]
  refine ⟨key, ?_⟩
  intro marshal w
  simp only [respond, key]

/-- C8 (as amended), at two enumerations of the same two pairs in opposite orders, the
second delivering one pair twice, and two opposite range orders. -/
theorem handler_result_is_order_independent_witness :
    handler (sampleNode [(3, sampleTx), (1, sampleTx2)] none) insertionOrder "f1abc"
      = handler (sampleNode [(1, sampleTx2), (3, sampleTx), (1, sampleTx2)] none)
          reverseOrder "f1abc" :=
  (handler_result_is_order_independent (sampleNode [(3, sampleTx), (1, sampleTx2)] none)
    (sampleNode [(1, sampleTx2), (3, sampleTx), (1, sampleTx2)] none)
    insertionOrder reverseOrder "f1abc" rfl rfl rfl rfl rfl rfl
    (fun _ p => by
      show p ∈ [((3 : Int), sampleTx), (1, sampleTx2)]
        ↔ p ∈ [((1 : Int), sampleTx2), (3, sampleTx), (1, sampleTx2)]
      simp only [List.mem_cons, List.mem_singleton, List.not_mem_nil, or_false]
      tauto)
    (fun _ => rfl)
    (fun _ k a b ha hb => by
      have ha : (k, a) ∈ [((3 : Int), sampleTx), (1, sampleTx2)] := ha
      have hb : (k, b) ∈ [((3 : Int), sampleTx), (1, sampleTx2)] := hb
      simp only [List.mem_cons, List.mem_singleton, List.not_mem_nil, or_false,
        Prod.mk.injEq] at ha hb
      rcases ha with ⟨h1, rfl⟩ | ⟨h1, rfl⟩ <;> rcases hb with ⟨h2, rfl⟩ | ⟨h2, rfl⟩ <;>
        first | rfl | omega)).1

/-- C8 as stated fails when one id is delivered with two transactions: the two enumerations
below deliver the same set of pairs in opposite orders, every other operation agrees, and
the map keeps the transaction delivered last, so the two results differ. -/
theorem handler_same_set_different_result :
    (∀ st p, p ∈ ((sampleNode [(3, sampleTx), (3, sampleTx2)] none).Pending st).1
      ↔ p ∈ ((sampleNode [(3, sampleTx2), (3, sampleTx)] none).Pending st).1) ∧
    (handler (sampleNode [(3, sampleTx), (3, sampleTx2)] none) insertionOrder "f1abc").1
      = (some [{ Id := 3, To := "f1q", Value := -5, Method := 2, Params := "",
                 Approved := none }], none) ∧
    (handler (sampleNode [(3, sampleTx2), (3, sampleTx)] none) insertionOrder "f1abc").1
      = (some [{ Id := 3, To := "f1xyz", Value := 1000, Method := 0, Params := "dead",
                 Approved := some [{ str := "f1aaa" }] }], none) ∧
    handler (sampleNode [(3, sampleTx), (3, sampleTx2)] none) insertionOrder "f1abc"
      ≠ handler (sampleNode [(3, sampleTx2), (3, sampleTx)] none) insertionOrder "f1abc" := by
  refine ⟨?_, by decide, by decide, by decide⟩
  intro st p
  show p ∈ [((3 : Int), sampleTx), (3, sampleTx2)]
    ↔ p ∈ [((3 : Int), sampleTx2), (3, sampleTx)]
  simp only [List.mem_cons, List.mem_singleton, List.not_mem_nil, or_false]
  tauto

/-! ## Claims about the HTTP callback -/

theorem sliceFrom1_slash (addr : String) : sliceFrom1 ("/" ++ addr) = some addr := by
  simp [sliceFrom1, String.data_append]

theorem httpCallback_slash {T K A S : Type} (n : Node T K A S) (ro : RangeOrder)
    (marshal : Slice MsigPendingTxn → Except Err String) (w : ResponseWriter) (addr : String) :
    httpCallback n ro marshal w ("/" ++ addr) = some (respond n ro marshal addr w) := by
  simp only [httpCallback, sliceFrom1_slash]

theorem jsonMarshal_empty {α : Type} (enc : α → Except Err String) :
    jsonMarshal enc (some []) = .ok "[]" := rfl

theorem handler_error_empty {T K A S : Type} (n : Node T K A S) (ro : RangeOrder)
    (addr : String) (e : Err) (h : (handler n ro addr).1.2 = some e) :
    (handler n ro addr).1 = (some [], some e) := by
  rcases handler_cases n ro addr with ⟨e', h'⟩ | ⟨items, h'⟩
  · rw [h'] at h ⊢
    simp only [Option.some.injEq] at h
    rw [h]
  · rw [h'] at h
    simp at h

/-- C3 on the code: when the resolver returns the error `e`, the callback sends status 400
and the body is the error text and a newline followed by the JSON text `[]`; the body is not
the error text alone, since the callback goes on to marshal and write after `http.Error`. -/
theorem httpCallback_error_body_has_json_tail {T K A S : Type} (n : Node T K A S)
    (ro : RangeOrder) (enc : MsigPendingTxn → Except Err String) (addr : String) (e : Err)
    (h : (handler n ro addr).1.2 = some e) :
    ∃ w log, httpCallback n ro (jsonMarshal enc) ResponseWriter.fresh ("/" ++ addr)
        = some (w, log) ∧
      w.status = some 400 ∧ w.body = (e ++ "\n") ++ "[]" ∧ w.body ≠ e ++ "\n" := by
  have hh := handler_error_empty n ro addr e h
  have hb : respond n ro (jsonMarshal enc) addr ResponseWriter.fresh
      = ({ status := some 400, body := ("" ++ (e ++ "\n")) ++ "[]" }, (handler n ro addr).2) := by
    rcases hr : handler n ro addr with ⟨⟨txns, err⟩, log⟩
    rw [hr] at hh
    simp only [Prod.mk.injEq] at hh
    obtain ⟨rfl, rfl⟩ := hh
    simp only [respond, hr, jsonMarshal_empty, httpError, ResponseWriter.WriteHeader,
      ResponseWriter.Write, ResponseWriter.fresh, StatusBadRequest]
  refine ⟨_, _, (httpCallback_slash n ro _ _ addr).trans (congrArg some hb), rfl, ?_, ?_⟩
  · simp
  · intro hne
    have := congrArg String.length hne
    simp only [String.length_append] at this
    have h2 : "[]".length = 2 := by decide
    omega

/-- C3 on the code, at the request path `/not-an-address`. -/
theorem httpCallback_error_body_has_json_tail_witness :
    httpCallback (sampleNode [(3, sampleTx)] none) insertionOrder (jsonMarshal encodeId)
        ResponseWriter.fresh "/not-an-address"
      = some ({ status := some 400, body := "unknown address network\n[]" },
          [Call.NewFromString]) ∧
    ∃ w log, httpCallback (sampleNode [(3, sampleTx)] none) insertionOrder
        (jsonMarshal encodeId) ResponseWriter.fresh ("/" ++ "not-an-address") = some (w, log) ∧
      w.status = some 400 ∧ w.body = ("unknown address network" ++ "\n") ++ "[]" ∧
      w.body ≠ "unknown address network" ++ "\n" :=
  ⟨by decide,
   httpCallback_error_body_has_json_tail (sampleNode [(3, sampleTx)] none) insertionOrder
    encodeId "not-an-address" "unknown address network" rfl⟩

/-- C4: with the first status written being the one sent, the status is 400 exactly when
the resolver returns an error, 500 exactly when the resolver succeeds and marshalling its
result fails, and 200 exactly when both succeed. -/
theorem httpCallback_status_by_outcome {T K A S : Type} (n : Node T K A S) (ro : RangeOrder)
    (marshal : Slice MsigPendingTxn → Except Err String) (addr : String) :
    ∃ w log, httpCallback n ro marshal ResponseWriter.fresh ("/" ++ addr) = some (w, log) ∧
      (w.status = some 400 ↔ (handler n ro addr).1.2 ≠ none) ∧
      (w.status = some 500 ↔
        (handler n ro addr).1.2 = none ∧ ∃ e, marshal (handler n ro addr).1.1 = .error e) ∧
      (w.status = some 200 ↔
        (handler n ro addr).1.2 = none ∧ ∃ out, marshal (handler n ro addr).1.1 = .ok out) := by
  refine ⟨(respond n ro marshal addr ResponseWriter.fresh).1,
    (respond n ro marshal addr ResponseWriter.fresh).2,
    httpCallback_slash n ro marshal _ addr, ?_⟩
  rcases hr : handler n ro addr with ⟨⟨txns, err⟩, log⟩
  cases err with
  | some e =>
    cases hm : marshal txns <;>
      simp only [respond, hr, hm, httpError, ResponseWriter.WriteHeader, ResponseWriter.Write,
        ResponseWriter.fresh, StatusBadRequest, StatusInternalServerError] <;>
      simp
  | none =>
    cases hm : marshal txns <;>
      simp only [respond, hr, hm, httpError, ResponseWriter.WriteHeader, ResponseWriter.Write,
        ResponseWriter.fresh, StatusBadRequest, StatusInternalServerError] <;>
      simp

/-- C5: when parse, head fetch, actor fetch and state load succeed and the enumeration
delivers nothing, the resolver returns no error and the empty non-nil sequence, and the
response is status 200 with body exactly `[]`. -/
theorem empty_pending_yields_empty_array {T K A S : Type} (n : Node T K A S) (ro : RangeOrder)
    (enc : MsigPendingTxn → Except Err String) (addr : String)
    (maddr : Address) (head : T) (act : A) (st : S)
    (h1 : n.NewFromString addr = .ok maddr) (h2 : n.ChainHead = .ok head)
    (h3 : n.StateGetActor maddr (n.Key head) = .ok act) (h4 : n.Load act = .ok st)
    (h5 : n.Pending st = ([], none)) :
    (handler n ro addr).1 = (some [], none) ∧
    (handler n ro addr).1.1 ≠ none ∧
    httpCallback n ro (jsonMarshal enc) ResponseWriter.fresh ("/" ++ addr)
      = some ({ status := some 200, body := "[]" }, allCalls) := by
  have hk : ro.order [] = [] := List.perm_nil.1 (ro.perm [])
  have hh : handler n ro addr = ((some [], none), allCalls) := by
    rw [handler_ok_eq n ro addr maddr head act st h1 h2 h3 h4 (by rw [h5])]
    simp [h5, collect, GoMap.keys, hk, sortedIds]
  refine ⟨by rw [hh], by rw [hh]; simp, ?_⟩
  rw [httpCallback_slash]
  simp only [respond, hh, jsonMarshal_empty, ResponseWriter.Write, ResponseWriter.WriteHeader,
    ResponseWriter.fresh]
  rfl

/-- C5, at a node with no pending transaction. -/
theorem empty_pending_yields_empty_array_witness :
    httpCallback (sampleNode [] none) reverseOrder (jsonMarshal encodeId)
        ResponseWriter.fresh ("/" ++ "f1abc")
      = some ({ status := some 200, body := "[]" }, allCalls) :=
  (empty_pending_yields_empty_array (sampleNode [] none) reverseOrder encodeId "f1abc"
    { str := "f1abc" } 7 1 2 rfl rfl rfl rfl rfl).2.2

/-! ## Claims about the hex text -/

theorem byte_shift (c : Byte) : c.val >>> 4 = c.val / 16 := by
  rw [Nat.shiftRight_eq_div_pow]

theorem byte_mask (c : Byte) : c.val &&& 0xF = c.val % 16 :=
  Nat.and_pow_two_sub_one_eq_mod c.val 4

theorem hexDigit_eq_digitChar (k : Nat) (h : k < 16) : hexDigit k = Nat.digitChar k := by
  interval_cases k <;> rfl

theorem hexDigit_lower (k : Nat) (h : k < 16) :
    ('0' ≤ hexDigit k ∧ hexDigit k ≤ '9') ∨ ('a' ≤ hexDigit k ∧ hexDigit k ≤ 'f') := by
  interval_cases k <;> decide

theorem fromHexChar_hexDigit (k : Nat) (h : k < 16) : fromHexChar (hexDigit k) = some k := by
  interval_cases k <;> rfl

theorem fmtSbx_length (bs : List Byte) : (fmtSbx bs).length = 2 * bs.length := by
  induction bs with
  | nil => rfl
  | cons c rest ih =>
    simp only [fmtSbx, List.length_cons, ih]
    omega

theorem fmtSbx_lower (bs : List Byte) (ch : Char) (h : ch ∈ fmtSbx bs) :
    ('0' ≤ ch ∧ ch ≤ '9') ∨ ('a' ≤ ch ∧ ch ≤ 'f') := by
  induction bs with
  | nil => simp [fmtSbx] at h
  | cons c rest ih =>
    simp only [fmtSbx, List.mem_cons] at h
    rcases h with rfl | rfl | h
    · rw [byte_shift]
      exact hexDigit_lower _ (by omega)
    · rw [byte_mask]
      exact hexDigit_lower _ (by omega)
    · exact ih h

theorem fmtSbx_digits (bs : List Byte) (i : Nat) (h : i < bs.length) :
    (fmtSbx bs)[2 * i]? = some (Nat.digitChar (bs[i].val / 16)) ∧
    (fmtSbx bs)[2 * i + 1]? = some (Nat.digitChar (bs[i].val % 16)) := by
  induction bs generalizing i with
  | nil => simp at h
  | cons c rest ih =>
    cases i with
    | zero =>
      simp only [fmtSbx, Nat.mul_zero, List.getElem?_cons_zero, Nat.zero_add,
        List.getElem?_cons_succ, List.getElem_cons_zero, byte_shift, byte_mask]
      exact ⟨by rw [hexDigit_eq_digitChar _ (by omega)],
        by rw [hexDigit_eq_digitChar _ (by omega)]⟩
    | succ i =>
      have hi : i < rest.length := by simpa using h
      have e1 : 2 * (i + 1) = (2 * i + 1) + 1 := by omega
      have e2 : 2 * (i + 1) + 1 = (2 * i + 1 + 1) + 1 := by omega
      simp only [fmtSbx, e1, e2, List.getElem?_cons_succ, List.getElem_cons_succ]
      exact ih i hi

theorem hexDecode_fmtSbx (bs : List Byte) : hexDecode (fmtSbx bs) = some bs := by
  induction bs with
  | nil => rfl
  | cons c rest ih =>
    simp only [fmtSbx, hexDecode, byte_shift, byte_mask, ih,
      fromHexChar_hexDigit (c.val / 16) (by omega), fromHexChar_hexDigit (c.val % 16) (by omega)]
    congr 2
    apply Fin.ext
    show (c.val / 16 * 16 + c.val % 16) % 256 = c.val
    omega

/-- C7: the `Params` text of the record for `txid` is the `%x` rendering of the pending
transaction's parameter bytes `b`: its length is `2·|b|`, every character is one of `0-9`,
`a-f`, characters `2i` and `2i+1` are the high and the low hex digit of `b[i]`, hex decoding
gives `b` back, and the empty and the nil byte sequence render as the empty string. -/
theorem params_hex_text {T K A S : Type} (n : Node T K A S) (pending : GoMap) (txid : Int) :
    (toMsigPendingTxn n pending txid).Params.length
      = 2 * (pending.get txid).Params.elems.length ∧
    (∀ ch ∈ (toMsigPendingTxn n pending txid).Params.data,
      ('0' ≤ ch ∧ ch ≤ '9') ∨ ('a' ≤ ch ∧ ch ≤ 'f')) ∧
    (∀ i (h : i < (pending.get txid).Params.elems.length),
      (toMsigPendingTxn n pending txid).Params.data[2 * i]?
        = some (Nat.digitChar ((pending.get txid).Params.elems[i].val / 16)) ∧
      (toMsigPendingTxn n pending txid).Params.data[2 * i + 1]?
        = some (Nat.digitChar ((pending.get txid).Params.elems[i].val % 16))) ∧
    hexDecode (toMsigPendingTxn n pending txid).Params.data
      = some (pending.get txid).Params.elems ∧
    ((pending.get txid).Params.elems = [] → (toMsigPendingTxn n pending txid).Params = "") ∧
    sprintfHex none = "" ∧ sprintfHex (some []) = "" := by
  refine ⟨?_, ?_, ?_, ?_, ?_, rfl, rfl⟩
  · exact fmtSbx_length _
  · intro ch h
    exact fmtSbx_lower _ ch h
  · intro i h
    exact fmtSbx_digits _ i h
  · exact hexDecode_fmtSbx _
  · intro h
    show String.mk (fmtSbx (pending.get txid).Params.elems) = ""
    rw [h]
    rfl

/-- C7, at the parameter bytes DE AD. -/
theorem params_hex_text_witness :
    (toMsigPendingTxn (sampleNode [] none) [(3, sampleTx)] 3).Params = "dead" ∧
    hexDecode (toMsigPendingTxn (sampleNode [] none) [(3, sampleTx)] 3).Params.data
      = some [0xDE, 0xAD] :=
  ⟨by decide, (params_hex_text (sampleNode [] none) [(3, sampleTx)] 3).2.2.2.1⟩

/-! ## Claims about the command action -/

/-- C9 (as amended): when the first positional argument fails integer parsing, the action
returns an error without reaching the listen call; the error is `port must be an integer: `
followed by the parse error's text when the node API was obtained, and the API error when
obtaining the node API failed. -/
theorem action_bad_port_never_listens {T K A S : Type} (c : Cli T K A S) (a : String)
    (rest : List String) (e : Err) (hargs : c.Args = a :: rest)
    (hparse : c.ParseInt a = .error e) :
    (∀ l, Effect.ListenAndServe l ∉ (action c).2) ∧
    (∃ err, (action c).1 = .returned (some err)) ∧
    (∀ node, c.GetFullNodeAPI = .ok node →
      action c = (.returned (some ("port must be an integer: " ++ e)),
        [Effect.GetFullNodeAPI, Effect.HandleFunc, Effect.Closer])) ∧
    (∀ e', c.GetFullNodeAPI = .error e' →
      action c = (.returned (some e'), [Effect.GetFullNodeAPI])) := by
  cases hapi : c.GetFullNodeAPI with
  | error e' =>
    have ha : action c = (.returned (some e'), [Effect.GetFullNodeAPI]) := by
      simp [action, hargs, hapi]
    rw [ha]
    refine ⟨by simp, ⟨e', rfl⟩, by simp, by simp⟩
  | ok node =>
    have ha : action c = (.returned (some ("port must be an integer: " ++ e)),
        [Effect.GetFullNodeAPI, Effect.HandleFunc, Effect.Closer]) := by
      simp [action, hargs, hapi, firstArg, hparse]
    rw [ha]
    refine ⟨by simp, ⟨_, rfl⟩, by simp, by simp⟩

/-- C9 (as amended), at the argument `abc` with the node API obtained. -/
theorem action_bad_port_never_listens_witness :
    action (sampleCli ["abc"] (.ok (sampleNode [] none)))
      = (.returned (some ("port must be an integer: " ++ "invalid syntax")),
        [Effect.GetFullNodeAPI, Effect.HandleFunc, Effect.Closer]) :=
  (action_bad_port_never_listens (sampleCli ["abc"] (.ok (sampleNode [] none))) "abc" []
    "invalid syntax" rfl rfl).2.2.1 (sampleNode [] none) rfl

/-- C9 as stated fails when the node API cannot be obtained: the argument `abc` fails
integer parsing, and the action returns the API error, not the port message. -/
theorem action_bad_port_api_error :
    (sampleCli ["abc"] (.error "could not get API info")).ParseInt "abc"
      = .error "invalid syntax" ∧
    (action (sampleCli ["abc"] (.error "could not get API info"))).1
      = .returned (some "could not get API info") ∧
    (action (sampleCli ["abc"] (.error "could not get API info"))).1
      ≠ .returned (some ("port must be an integer: " ++ "invalid syntax")) := by
  refine ⟨rfl, rfl, ?_⟩
  decide

/-! ## The three statuses on sample requests -/

theorem httpCallback_sample_ok :
    httpCallback (sampleNode [(3, sampleTx), (1, sampleTx2)] none) reverseOrder
        (jsonMarshal encodeId) ResponseWriter.fresh "/f1abc"
      = some ({ status := some 200, body := "[1,3]" }, allCalls) := by
  decide

theorem httpCallback_sample_marshal_error :
    httpCallback (sampleNode [(3, sampleTx)] none) reverseOrder
        (jsonMarshal (fun _ => .error "json: unsupported value")) ResponseWriter.fresh "/f1abc"
      = some ({ status := some 500, body := "json: unsupported value\n" }, allCalls) := by
  decide

theorem httpCallback_sample_empty_path :
    httpCallback (sampleNode [(3, sampleTx)] none) reverseOrder (jsonMarshal encodeId)
        ResponseWriter.fresh "" = none := by
  decide

end Lotus
